import Mathlib

/-!
Verification of the `registry` package-registry server against its
natural-language specification.

The Rust source is shallowly embedded: strings are modelled as `List Char`
(written `Str`), hash maps as association lists or functions into `Option`,
byte vectors as `List Nat`, and fallible operations as `Except`/`Option`.
The external codec libraries that the publish path drives (base64, gzip,
tar) are passed in as an explicit `Codecs` record of functions, matching
the specification's stance that they are out-of-scope collaborators with
stated contracts; every structural decision made by the repository's own
code is embedded faithfully.
-/

deriving instance DecidableEq for Except

namespace Registry

/-- Strings are modelled as lists of characters, so that the splitting,
prefix-stripping and replacement loops of the source can be reasoned about
by structural induction. -/
abbrev Str := List Char

/-- Whitespace trimming from the front of a character list (half of Rust's
`str::trim`). -/
def trimFront (l : Str) : Str := l.dropWhile Char.isWhitespace

/-- Model of Rust's `str::trim`: drop whitespace from both ends. -/
def trimChars (l : Str) : Str := ((trimFront l).reverse.dropWhile Char.isWhitespace).reverse

/-- Value of an ASCII hex digit, as used by percent-decoding. -/
def hexVal (c : Char) : Option Nat :=
  if '0' ≤ c ∧ c ≤ '9' then some (c.toNat - '0'.toNat)
  else if 'a' ≤ c ∧ c ≤ 'f' then some (c.toNat - 'a'.toNat + 10)
  else if 'A' ≤ c ∧ c ≤ 'F' then some (c.toNat - 'A'.toNat + 10)
  else none

/-- Model of `urlencoding::decode` as invoked by `PackageIdentifier::from_str`
(src/models/packument.rs): a `%` followed by two hex digits becomes the decoded
character; a malformed escape keeps the `%` literally and continues. Decoded
bytes are mapped directly to characters (the multi-byte UTF-8 recombination of
the library is abstracted away; the claims settled here only exercise ASCII). -/
def urldecode : Str → Str
  | [] => []
  | '%' :: a :: b :: rest2 =>
    match hexVal a, hexVal b with
    | some hi, some lo => Char.ofNat (16 * hi + lo) :: urldecode rest2
    | _, _ => '%' :: urldecode (a :: b :: rest2)
  | c :: rest => c :: urldecode rest

/-- Model of Rust's `str::split('/')` (which always yields at least one piece,
the empty string for an empty input). -/
def splitSlash : Str → List Str
  | [] => [[]]
  | c :: rest =>
    if c = '/' then [] :: splitSlash rest
    else
      match splitSlash rest with
      | [] => [[c]]
      | h :: t => (c :: h) :: t

/-- Embedding of `PackageIdentifier` (src/models/packument.rs): an optional
scope and a name. -/
structure PackageIdentifier where
  scope : Option Str
  name : Str
deriving DecidableEq

/-- Rendering of a package identifier — the `Display` impl of
`PackageIdentifier`: `@{scope}/{name}` when scoped, otherwise the bare name. -/
def renderPackageIdentifier (p : PackageIdentifier) : Str :=
  match p.scope with
  | some scope => '@' :: (scope ++ '/' :: p.name)
  | none => p.name

/-- Model of `str::strip_prefix(char)`: remove a leading character when it
matches. -/
def charStrip (c : Char) : Str → Option Str
  | x :: xs => if x = c then some xs else none
  | [] => none

/-- Embedding of `PackageIdentifier::from_str` (src/models/packument.rs):
percent-decode the path segment, split on `/`, then: a first piece starting
with `@` contributes the scope and requires a following name piece; more than
two pieces is an error; the (dead, see the zero-parts theorem) empty-split
case carries the source's "there must be some kind of package name" error. -/
def parsePackageIdentifier (s : Str) : Except Str PackageIdentifier :=
  match splitSlash (urldecode s) with
  | [] => .error "there must be some kind of package name".toList
  | part :: rest =>
    match charStrip '@' part with
    | some scope =>
      match rest with
      | [] => .error "expected a name component after a scope component".toList
      | name :: rest2 =>
        if rest2.isEmpty then .ok ⟨some scope, name⟩
        else .error "package identifiers must have at most 1 slash".toList
    | none =>
      if rest.isEmpty then .ok ⟨none, part⟩
      else .error "package identifiers must have at most 1 slash".toList

/-! ### Maintainers -/

/-- Embedding of `MaintainerObject` (src/models/packument.rs). -/
structure MaintainerObject where
  name : Option Str
  email : Option Str
  url : Option Str
deriving DecidableEq

/-- Embedding of `Maintainer` (src/models/packument.rs): either a byline
string or an object. -/
inductive Maintainer where
  | Byline (s : Str)
  | Object (o : MaintainerObject)
deriving DecidableEq

/-- Characters at which the byline regex's name capture `[^<(]+` stops. -/
def isNameStop (c : Char) : Bool := c = '<' || c = '('

/-- The `name` field of `Maintainer::into_object` (src/models/packument.rs).
The byline case models the regex `(?<name>[^<(]+)...` applied by
`Regex::captures`: the leftmost match starts at the first character that is
neither `<` nor `(`; the greedy name capture then runs until the next `<` or
`(` (or the end) and is trimmed. When no position can start a match the
captures are absent and the default object (no name) is produced. -/
def intoObjectName : Maintainer → Option Str
  | .Object o => o.name
  | .Byline s =>
    match s.dropWhile isNameStop with
    | [] => none
    | st => some (trimChars (st.takeWhile (fun c => !isNameStop c)))

/-- Projection of a maintainer list to its set of names, as the
`HashSet<_>` collect of `filter_map(|maint| maint.into_object().name)` in
`PackageModification::from_diff`. -/
def maintainerNames (ms : List Maintainer) : List Str :=
  (ms.filterMap intoObjectName).dedup

/-! ### Packument data model (src/models/packument.rs) -/

/-- Embedding of `Attachment`. -/
structure Attachment where
  content_type : Str
  data : Str
deriving DecidableEq

/-- Embedding of `Dist` (the fields the diff engine carries through). -/
structure Dist where
  tarball : Str
  shasum : Str
deriving DecidableEq

/-- Embedding of `PackumentVersion` (the version object is only cloned into
the emitted modification, so the embedding keeps its identifying fields). -/
structure PackumentVersion where
  id : Str
  dist : Dist
deriving DecidableEq

/-- Embedding of `DistTags`: an optional `latest` plus the flattened tag
map (modelled as an association list). -/
structure DistTags where
  latest : Option Str
  tags : List (Str × Str)
deriving DecidableEq

/-- Embedding of `Packument`, restricted to the top-level fields consulted
by the publish diff engine and the handlers: `_id`, `name`, `dist-tags`,
`versions`, `maintainers`, `users` (stargazers) and `_attachments`. Hash
maps become association lists. -/
structure Packument where
  id : Option Str
  name : Option Str
  dist_tags : Option DistTags
  versions : Option (List (Str × PackumentVersion))
  maintainers : Option (List Maintainer)
  stargazers : Option (List (Str × Bool))
  attachments : Option (List (Str × Attachment))

/-- The `Default::default()` packument: every field absent. -/
def emptyPackument : Packument := ⟨none, none, none, none, none, none, none⟩

/-- HashMap `get`: first association for the key. -/
def alistGet {α : Type} (l : List (Str × α)) (k : Str) : Option α :=
  (l.find? (fun kv => decide (kv.1 = k))).map Prod.snd

/-- Key set of a stargazer map (`HashSet` of the keys). -/
def stargazerKeys (sg : List (Str × Bool)) : List Str := (sg.map Prod.fst).dedup

/-- Set difference of two (deduplicated) name lists, as
`HashSet::difference`. -/
def listDiff (a b : List Str) : List Str := a.filter (fun x => decide (x ∉ b))

/-- Set equality of two name lists, as `HashSet` equality. -/
def sameSet (a b : List Str) : Bool :=
  a.all (fun x => decide (x ∈ b)) && b.all (fun x => decide (x ∈ a))

/-- Embedding of `PackageModification` (src/models/packument.rs and
src/operations.rs). -/
inductive PackageModification where
  | AddStar (name : Str)
  | RemoveStar (name : Str)
  | AddTag (tag : Str) (version : Str)
  | RemoveTag (tag : Str)
  | AddMaintainer (name : Str)
  | RemoveMaintainer (name : Str)
  | AddVersion (tag : Str) (version : PackumentVersion) (tarball : Option (List Nat))
deriving DecidableEq

/-! ### Tarball validation (the AddVersion publish path) -/

/-- A tar entry as seen by the validator: the header path and size. The
validator never reads file contents. -/
structure TarEntry where
  path : Str
  size : Nat
deriving DecidableEq

/-- The external codec libraries driven by the publish path, passed
explicitly: base64 decoding of the attachment data (the decoded bytes are
what the `TeeReader` captures into `debase64d`), gzip decompression, and
tar header enumeration. `gunzip`/`tarEntries` return `none` on a library
error, which `from_diff` propagates as a failure. -/
structure Codecs where
  b64decode : Str → List Nat
  gunzip : List Nat → Option (List Nat)
  tarEntries : List Nat → Option (List TarEntry)

/-- Components of a relative path, as Rust's `std::path::Path::components`:
split on `/`, drop empty pieces and interior `.` pieces; a leading `/`
contributes a root component (kept as the piece `"/"`) and a leading `.`
is preserved. -/
def pathComponents (p : Str) : List Str :=
  let raw := splitSlash p
  let norm := raw.filter (fun piece => decide (piece ≠ []) && decide (piece ≠ ['.']))
  if p.head? = some '/' then ['/'] :: norm
  else if raw.head? = some ['.'] then ['.'] :: norm else norm

/-- Model of `entry.path().strip_prefix("package/")`: `Path::strip_prefix`
is component-based, so it succeeds exactly when the first component is
`package`, returning the remaining components (possibly none). -/
def stripPackageComponents (p : Str) : Option (List Str) :=
  match pathComponents p with
  | piece :: rest => if piece = "package".toList then some rest else none
  | [] => none

/-- Display of the stripped path (`path.display().to_string()`): its
components joined by `/`. -/
def displayComponents (cs : List Str) : Str := List.intercalate ['/'] cs

/-- MAX_FILE_COUNT (src/models/packument.rs): 16000. -/
def MAX_FILE_COUNT : Nat := 16000

/-- MAX_UNPACKED_SIZE (src/models/packument.rs): 1 GiB. -/
def MAX_UNPACKED_SIZE : Nat := 1 <<< 30

/-- The `for entry in tarball.entries()?` loop of
`PackageModification::from_diff`, carrying `unpacked_size`, `file_count`
and `saw_package_json`. -/
def validateEntriesLoop : List TarEntry → Nat → Nat → Bool → Except Str Bool
  | [], _, _, saw_package_json => .ok saw_package_json
  | e :: rest, unpacked_size, file_count, saw_package_json =>
    let unpacked_size2 := unpacked_size + e.size
    let file_count2 := file_count + 1
    if MAX_FILE_COUNT < file_count2 then
      .error "Tarball exceeded maximum file count".toList
    else if MAX_UNPACKED_SIZE < unpacked_size2 then
      .error "Tarball exceeded maximum unpacked size".toList
    else
      match stripPackageComponents e.path with
      | none => .error "Tarball entry didn\x27t start with \x27package/\x27".toList
      | some r =>
        validateEntriesLoop rest unpacked_size2 file_count2
          (saw_package_json || decide (displayComponents r = "package.json".toList))

/-- Tarball validation as performed by the AddVersion publish path: run the
entry loop from zero counters, then require that `package/package.json`
was seen. -/
def validateTarball (es : List TarEntry) : Except Str Unit :=
  match validateEntriesLoop es 0 0 false with
  | .error msg => .error msg
  | .ok true => .ok ()
  | .ok false => .error "Tarball did not contain package.json".toList

/-- Total unpacked size declared by a tar entry list. -/
def sumSizes (es : List TarEntry) : Nat := (es.map TarEntry.size).sum

/-- Whether some entry's path strips to a remainder displaying as
`package.json` — the condition accumulated into `saw_package_json`. -/
def anyPackageJson (es : List TarEntry) : Bool :=
  es.any (fun e =>
    match stripPackageComponents e.path with
    | some r => decide (displayComponents r = "package.json".toList)
    | none => false)

/-! ### The publish diff engine (`PackageModification::from_diff`) -/

/-- Branch 1 of `from_diff`: the stargazer diff. Returns `some` when the
branch returns from the function (a modification or a bail), `none` when
control falls through to the next branch. -/
def stargazerDiff (old new : Packument) : Option (Except Str PackageModification) :=
  match old.stargazers, new.stargazers with
  | some og, some ng =>
    let oldK := stargazerKeys og
    let newK := stargazerKeys ng
    if sameSet oldK newK then none
    else
      match listDiff oldK newK with
      | [x] => some (.ok (.RemoveStar x))
      | _ :: _ :: _ => some (.error "Can only remove a single stargazer at a time".toList)
      | [] =>
        match listDiff newK oldK with
        | [x] => some (.ok (.AddStar x))
        | _ :: _ :: _ => some (.error "Can only add a single stargazer at a time".toList)
        | [] => none
  | _, _ => none

/-- The dist-tags shape required by the version-publish branch: exactly one
tag, either as `latest` with no other tags or as a single tag entry with
`latest` unset. -/
def singleTagShape (dt : DistTags) : Bool :=
  (decide (dt.tags.length = 1) && dt.latest.isNone) || (dt.latest.isSome && dt.tags.isEmpty)

/-- The attachment key `"{pkg_name.name}-{version_name}.tgz"`. -/
def attachmentNameFor (pkgName version_name : Str) : Str :=
  pkgName ++ '-' :: (version_name ++ ".tgz".toList)

/-- Branch 2 of `from_diff`: the version publish. Mirrors the source's
sequence of bail points; on success the emitted `AddVersion.tarball` is
`debase64d`, the base64-decoded attachment bytes captured by the
`TeeReader` (the input of the gzip decoder, not its output). -/
def publishDiff (c : Codecs) (new : Packument) : Option (Except Str PackageModification) :=
  match new.dist_tags, new.versions, new.attachments with
  | some dist_tags, some versions, some attachments =>
    if singleTagShape dist_tags then
      some (
        match dist_tags.latest.orElse (fun _ => (dist_tags.tags.map Prod.snd).head?) with
        | none => .error "Could not find tag for publish".toList
        | some version_name =>
          match (dist_tags.latest.map (fun _ => "latest".toList)).orElse
              (fun _ => (dist_tags.tags.map Prod.fst).head?) with
          | none => .error "Could not find new tag name".toList
          | some tag_name =>
            match alistGet versions version_name with
            | none => .error "Attempted tag publish failed: did not refer to new version".toList
            | some version =>
              match new.name.orElse (fun _ => new.id) with
              | none => .error "Package name not present".toList
              | some pkg_name_str =>
                match parsePackageIdentifier pkg_name_str with
                | .error e => .error e
                | .ok pkg_name =>
                  match alistGet attachments (attachmentNameFor pkg_name.name version_name) with
                  | none => .error "Expected attachment not found".toList
                  | some attachment =>
                    if attachment.content_type ≠ "application/octet-stream".toList then
                      .error "Expected attachment to have application/octet-stream content-type".toList
                    else
                      let debase64d := c.b64decode attachment.data
                      match c.gunzip debase64d with
                      | none => .error "gzip decode failed".toList
                      | some tarBytes =>
                        match c.tarEntries tarBytes with
                        | none => .error "tar archive read failed".toList
                        | some entries =>
                          match validateTarball entries with
                          | .error msg => .error msg
                          | .ok _ => .ok (.AddVersion tag_name version (some debase64d)))
    else none
  | _, _, _ => none

/-- Branch 3 of `from_diff`: the maintainer diff, on the name sets obtained
through `into_object`. -/
def maintainerDiff (old new : Packument) : Option (Except Str PackageModification) :=
  match old.maintainers, new.maintainers with
  | some om, some nm =>
    let oldN := maintainerNames om
    let newN := maintainerNames nm
    if sameSet oldN newN then none
    else
      match listDiff oldN newN with
      | [x] => some (.ok (.RemoveMaintainer x))
      | _ :: _ :: _ => some (.error "Can only remove a single maintainer at a time".toList)
      | [] =>
        match listDiff newN oldN with
        | [x] => some (.ok (.AddMaintainer x))
        | _ :: _ :: _ => some (.error "Can only add a single maintainer at a time".toList)
        | [] => none
  | _, _ => none

/-- Embedding of `PackageModification::from_diff` (src/models/packument.rs
lines 327-492, duplicated at src/operations.rs lines 140-305): the three
branches in source order, each either returning or falling through, and the
final `bail!("wip")`. -/
def from_diff (c : Codecs) (old new : Packument) : Except Str PackageModification :=
  match stargazerDiff old new with
  | some r => r
  | none =>
    match publishDiff c new with
    | some r => r
    | none =>
      match maintainerDiff old new with
      | some r => r
      | none => .error "wip".toList

/-! ### Tarball URL rewriting (src/stores/remote.rs) -/

/-- The scanning loop of Rust's `str::replace(pat, rep)`: replace every
non-overlapping occurrence of `pat`, scanning left to right; with an empty
pattern the replacement is inserted at every character boundary. The extra
fuel argument only makes the recursion structural: a matched (non-empty)
pattern consumes `pat.length ≥ 1` characters, so fuel `s.length` never runs
out (the fuel-exhausted equation is unreachable from `replaceAll`). -/
def replaceAllFuel (pat rep : Str) : Nat → Str → Str
  | _, [] => if pat.isEmpty then rep else []
  | 0, s => s
  | fuel + 1, c :: rest =>
    if pat.isEmpty then rep ++ c :: replaceAllFuel pat rep fuel rest
    else if pat.isPrefixOf (c :: rest) then
      rep ++ replaceAllFuel pat rep fuel ((c :: rest).drop pat.length)
    else c :: replaceAllFuel pat rep fuel rest

/-- Model of Rust's `str::replace(pat, rep)` applied to `s`. -/
def replaceAll (pat rep s : Str) : Str := replaceAllFuel pat rep s.length s

/-- Substring occurrence test (Rust's `str::contains` for a literal
pattern). -/
def containsSeq (pat : Str) : Str → Bool
  | [] => pat.isEmpty
  | c :: rest => pat.isPrefixOf (c :: rest) || containsSeq pat rest

/-- The tarball-URL rewrite of `RemoteStore::get_packument`
(src/stores/remote.rs line 73), on one `dist.tarball` string. -/
def rewriteTarballURL (upstreamUrl publicUrl tarball : Str) : Str :=
  replaceAll upstreamUrl publicUrl tarball

/-! ### Users, login sessions (src/policies/authenticator/oauth.rs) -/

/-- Embedding of `User` (src/models.rs). -/
structure User where
  name : Str
  email : Str
  full_name : Option Str
deriving DecidableEq

/-- Embedding of `LoginSession` (src/policies/authenticator/mod.rs): the
fields driving the state machine (the `initialized_at` timestamp is never
consulted by the modelled operations and is omitted). -/
structure LoginSession where
  user : Option User
  hostname : Option Str
  csrftoken : Option Str
deriving DecidableEq

/-- The login-session map held behind the `RwLock`, keyed by the session
id (a `Uuid`, modelled as a string key). -/
abbrev LoginSessionMap := Str → Option LoginSession

/-- HashMap `remove` on the login-session map. -/
def removeLoginSession (m : LoginSessionMap) (k : Str) : LoginSessionMap :=
  fun k2 => if k2 = k then none else m k2

/-- Embedding of `OAuthAuthenticator::poll_login_session`
(src/policies/authenticator/oauth.rs lines 147-164): read the session; an
unknown id is an error; a session without a user returns `None` and leaves
the map alone; a session with a user is removed and its user returned.
The two lock acquisitions of the source are sequential here. -/
def poll_login_session (m : LoginSessionMap) (bearer : Str) :
    Except Str (Option User) × LoginSessionMap :=
  match m bearer with
  | none => (.error "unrecognized login session".toList, m)
  | some session =>
    if session.user.isSome then (.ok session.user, removeLoginSession m bearer)
    else (.ok none, m)

/-! ### Token authorizer (src/operations.rs, src/operations/token_authorizer) -/

/-- The token-session map of `InMemoryTokenAuthorizer`, keyed by the token
session id (a `Uuid`, modelled as a string; `FromStr` on the trimmed header
remainder is modelled as the identity). Values are the session users. -/
abbrev TokenSessionMap := List (Str × User)

/-- Embedding of `InMemoryTokenAuthorizer::authenticate_session_bearer`:
a map lookup. -/
def authenticate_session_bearer (sessions : TokenSessionMap) (token : Str) : Option User :=
  alistGet sessions token

/-- The scheme-stripping step of `TokenAuthorizer::authenticate_session`:
`strip_prefix("Bearer ").or_else(|| strip_prefix("bearer "))`. -/
def stripScheme (h : Str) : Option Str :=
  if "Bearer ".toList.isPrefixOf h then some (h.drop "Bearer ".toList.length)
  else if "bearer ".toList.isPrefixOf h then some (h.drop "bearer ".toList.length)
  else none

/-- Embedding of the default `TokenAuthorizer::authenticate_session`
(src/operations.rs lines 63-81 and src/operations/token_authorizer/mod.rs
lines 29-47): take the `authorization` header if present, strip the
`Bearer `/`bearer ` scheme, trim the remainder, parse it as the token and
delegate to `authenticate_session_bearer`. -/
def authenticate_session (sessions : TokenSessionMap) (authHeader : Option Str) : Option User :=
  match authHeader with
  | none => none
  | some h =>
    match stripScheme h with
    | none => none
    | some rest => authenticate_session_bearer sessions (trimChars rest)

/-! ### Read-through package storage (src/operations/package_storage/read_through.rs) -/

/-- The cacache content-addressed store: committed content per key. -/
structure CacheState where
  entries : Str → Option (List Nat)

/-- Committing a writer: the key becomes visible with the written bytes. -/
def cacheInsert (st : CacheState) (k : Str) (v : List Nat) : CacheState :=
  ⟨fun k2 => if k2 = k then some v else st.entries k2⟩

/-- The fill loop `while let Some(chunk) = stream.next().await { let
Ok(chunk) = chunk else break; writer.write_all(chunk)?; }`: the bytes
written are the concatenation of the chunks before the first error chunk
(an error chunk stops the loop without failing it). -/
def writtenPrefix : List (Except Str (List Nat)) → List Nat
  | [] => []
  | .ok chunk :: rest => chunk ++ writtenPrefix rest
  | .error _ :: _ => []

/-- Cache key for a packument: `format!("packument:{}", name)`. -/
def packumentKey (pkg : PackageIdentifier) : Str :=
  "packument:".toList ++ renderPackageIdentifier pkg

/-- Cache key for a tarball: `format!("tarball:{}:{}", name, version)`. -/
def tarballKey (pkg : PackageIdentifier) (version : Str) : Str :=
  "tarball:".toList ++ renderPackageIdentifier pkg ++ ':' :: version

/-- The shared body of `ReadThrough::stream_packument` and
`ReadThrough::stream_tarball` for one key. The upstream argument is the
result of opening the inner stream (`Err` if the open itself failed,
otherwise the list of chunk results it will yield). On a cache hit the
committed content is streamed and the cache is untouched. On a miss, a
failed open propagates with no write; otherwise the fill loop runs,
`writer.commit()` is called unconditionally after it, and the recursive
re-read serves the just-committed bytes. Cache I/O itself is modelled as
infallible. -/
def readThroughFill (st : CacheState) (key : Str)
    (upstream : Except Str (List (Except Str (List Nat)))) :
    Except Str (List Nat) × CacheState :=
  match st.entries key with
  | some content => (.ok content, st)
  | none =>
    match upstream with
    | .error e => (.error e, st)
    | .ok chunks =>
      let written := writtenPrefix chunks
      (.ok written, cacheInsert st key written)

/-- Embedding of `ReadThrough::stream_packument` (lines 31-57). -/
def stream_packument (st : CacheState) (pkg : PackageIdentifier)
    (upstream : Except Str (List (Except Str (List Nat)))) :
    Except Str (List Nat) × CacheState :=
  readThroughFill st (packumentKey pkg) upstream

/-- Embedding of `ReadThrough::stream_tarball` (lines 59-86). -/
def stream_tarball (st : CacheState) (pkg : PackageIdentifier) (version : Str)
    (upstream : Except Str (List (Except Str (List Nat)))) :
    Except Str (List Nat) × CacheState :=
  readThroughFill st (tarballKey pkg version) upstream

/-! ### The publish handler (src/handlers/v1.rs) -/

/-- The operations of the `PackageStorage` trait (src/operations.rs lines
22-48) — the only storage capability the handlers hold. All three are
reads; the trait offers no write or mutation operation. -/
inductive StorageOp where
  | fetchPackumentOp (pkg : PackageIdentifier)
  | streamPackumentOp (pkg : PackageIdentifier)
  | streamTarballOp (pkg : PackageIdentifier) (version : Str)
deriving DecidableEq

/-- Embedding of `put_packument` (src/handlers/v1.rs lines 41-68), returning
the HTTP status (`Err` for the error branches, `Ok` for the final status)
together with the trace of storage operations performed. The raw `_id`
check precedes identifier parsing and the fetch; `fetch_packument` errors
are swallowed into the default packument; the computed modification is
bound to `_modification` and dropped; the success response is
`StatusCode::NOT_FOUND`. -/
def put_packument (c : Codecs) (storage : PackageIdentifier → Option Packument)
    (pkg : Str) (payload : Packument) : Except Nat Nat × List StorageOp :=
  if payload.id ≠ some pkg then (.error 400, [])
  else
    match parsePackageIdentifier pkg with
    | .error _ => (.error 400, [])
    | .ok p =>
      let old := (storage p).getD emptyPackument
      match from_diff c old payload with
      | .error _ => (.error 400, [.fetchPackumentOp p])
      | .ok _ => (.ok 404, [.fetchPackumentOp p])

/-! ### Concrete fixtures used by the closed theorems below -/

/-- Concrete base64-decoded attachment bytes: a gzip stream (gzip magic
`1f 8b`, deflate method `08`). -/
def gzBytesCex : List Nat := [31, 139, 8, 0, 99]

/-- Concrete gunzip output of `gzBytesCex`: a USTAR archive, whose first
header block begins with the entry name `package/package.json` — in
particular its first byte is `p` (0x70), not the gzip magic 0x1f, so it
differs from `gzBytesCex`. -/
def tarBytesCex : List Nat := ("package/package.json".toList.map Char.toNat) ++ [0, 0, 0]

/-- Concrete codec behaviour for the publish fixtures: the attachment data
decodes to `gzBytesCex`, which gunzips to `tarBytesCex`, which reads as a
one-entry archive containing `package/package.json`. -/
def codecsCex : Codecs :=
  { b64decode := fun _ => gzBytesCex
    gunzip := fun bs => if bs = gzBytesCex then some tarBytesCex else none
    tarEntries := fun bs =>
      if bs = tarBytesCex then some [⟨"package/package.json".toList, 0⟩] else none }

/-- The published version object of the publish fixture. -/
def versionCex : PackumentVersion :=
  ⟨"foo@1.0.0".toList, ⟨"http://reg/foo/-/foo-1.0.0.tgz".toList, "abc".toList⟩⟩

/-- A well-formed publish packument: `dist-tags.latest = 1.0.0`, a matching
`versions` entry, and a `foo-1.0.0.tgz` attachment of content type
`application/octet-stream`. -/
def publishPackumentCex : Packument :=
  { id := some "foo".toList
    name := some "foo".toList
    dist_tags := some ⟨some "1.0.0".toList, []⟩
    versions := some [("1.0.0".toList, versionCex)]
    maintainers := none
    stargazers := none
    attachments := some
      [("foo-1.0.0.tgz".toList, ⟨"application/octet-stream".toList, "QUJD".toList⟩)] }

/-- A concrete user. -/
def userAlice : User := ⟨"alice".toList, "alice@example.com".toList, none⟩

/-- A token-session map holding one bearer token for `userAlice`. -/
def tokenMapCex : TokenSessionMap := [("tok".toList, userAlice)]

/-- Old packument of the maintainer fixture: one maintainer byline. -/
def oldMaintainersPack : Packument :=
  { emptyPackument with maintainers := some [.Byline "gary".toList] }

/-- New packument of the maintainer fixture: the same byline plus one new
maintainer object. -/
def newMaintainersPack : Packument :=
  { emptyPackument with
    maintainers := some [.Byline "gary".toList, .Object ⟨some "alice".toList, none, none⟩] }

/-- The empty cache. -/
def emptyCache : CacheState := ⟨fun _ => none⟩

/-- The unscoped identifier `foo`. -/
def fooIdent : PackageIdentifier := ⟨none, "foo".toList⟩

/-- An upstream chunk sequence whose second chunk is an error. -/
def chunksCex : List (Except Str (List Nat)) := [.ok [1, 2], .error "boom".toList]

/-- A login session whose user is set. -/
def sessionWithUser : LoginSession := ⟨some userAlice, none, none⟩

/-- A login session still waiting for its user. -/
def sessionNoUser : LoginSession := ⟨none, none, some "csrf".toList⟩

/-- A login-session map with one completed session (`sid1`), one pending
session (`sid2`) and nothing else. -/
def loginMapCex : LoginSessionMap := fun k =>
  if k = "sid1".toList then some sessionWithUser
  else if k = "sid2".toList then some sessionNoUser
  else none

/-! ## Theorems

First the generic lemmas about the string machinery, then one theorem per
claim (with its counterexample and witness where applicable). -/

theorem splitSlash_ne_nil (l : Str) : splitSlash l ≠ [] := by
  cases l with
  | nil => simp [splitSlash]
  | cons c rest =>
    simp only [splitSlash]
    split
    · simp
    · split <;> simp

theorem mem_splitSlash_no_slash (l : Str) (piece : Str) (h : piece ∈ splitSlash l) :
    '/' ∉ piece := by
  induction l generalizing piece with
  | nil => simp [splitSlash] at h; simp [h]
  | cons c rest ih =>
    simp only [splitSlash] at h
    split at h
    · rcases List.mem_cons.mp h with h1 | h1
      · simp [h1]
      · exact ih piece h1
    · rename_i hc
      rcases hrest : splitSlash rest with _ | ⟨hd, tl⟩
      · exact absurd hrest (splitSlash_ne_nil rest)
      · rw [hrest] at h
        rcases List.mem_cons.mp h with h1 | h1
        · subst h1
          intro hmem
          rcases List.mem_cons.mp hmem with h2 | h2
          · exact hc h2.symm
          · exact ih hd (by rw [hrest]; exact List.mem_cons_self _ _) h2
        · exact ih piece (by rw [hrest]; exact List.mem_cons_of_mem _ h1)

theorem splitSlash_of_no_slash (l : Str) (h : '/' ∉ l) : splitSlash l = [l] := by
  induction l with
  | nil => simp [splitSlash]
  | cons c rest ih =>
    have hc : c ≠ '/' := fun hc => h (hc ▸ List.mem_cons_self _ _)
    have hrest : '/' ∉ rest := fun hm => h (List.mem_cons_of_mem _ hm)
    simp only [splitSlash, if_neg (fun hcc => hc hcc), ih hrest]

theorem splitSlash_append_slash (a b : Str) (h : '/' ∉ a) :
    splitSlash (a ++ '/' :: b) = a :: splitSlash b := by
  induction a with
  | nil => simp [splitSlash]
  | cons c a2 ih =>
    have hc : c ≠ '/' := fun hc => h (hc ▸ List.mem_cons_self _ _)
    have ha2 : '/' ∉ a2 := fun hm => h (List.mem_cons_of_mem _ hm)
    simp only [List.cons_append, splitSlash, if_neg (fun hcc => hc hcc)]
    rw [List.append_eq, ih ha2]

/-- C9: the package-identifier parser never reaches the zero-parts error —
`split('/')` always yields at least one piece, so a segment that decodes to
the empty string parses successfully as an identifier with an empty name
instead of failing with "there must be some kind of package name". -/
theorem c9_empty_segment_parses :
    parsePackageIdentifier [] = .ok ⟨none, []⟩ ∧
      ∀ s : Str, parsePackageIdentifier s ≠
        .error "there must be some kind of package name".toList := by
  constructor
  · rfl
  · intro s
    unfold parsePackageIdentifier
    rcases hsp : splitSlash (urldecode s) with _ | ⟨part, rest⟩
    · exact absurd hsp (splitSlash_ne_nil _)
    · simp only
      rcases hstrip : charStrip '@' part with _ | scope
      · simp only
        split <;> simp
      · rcases rest with _ | ⟨name, rest2⟩
        · simp only
          decide
        · simp only
          split <;> simp

theorem charStrip_eq_some {c : Char} {l t : Str} (h : charStrip c l = some t) :
    l = c :: t := by
  cases l with
  | nil => simp [charStrip] at h
  | cons x xs =>
    simp only [charStrip] at h
    split at h
    · rename_i hx
      simp only [Option.some.injEq] at h
      rw [hx, h]
    · simp at h

/-- C4 counterexample: the identifier parsed from the segment `%2541` has
name `%41`, but parsing its rendered form percent-decodes again and yields
the name `A`, so `parse(render(p)) = p` fails on this member of the
parser's valid domain. -/
theorem c4_counterexample :
    parsePackageIdentifier "%2541".toList = .ok ⟨none, "%41".toList⟩ ∧
      parsePackageIdentifier (renderPackageIdentifier ⟨none, "%41".toList⟩) ≠
        .ok ⟨none, "%41".toList⟩ := by
  constructor
  · decide
  · decide

/-- C4 (amended): for every identifier in the parser's valid domain whose
rendered form is fixed by percent-decoding (no `%`-escape sequences),
parsing the rendered form yields the identifier back:
`parse(render(p)) = p`. -/
theorem c4_parse_render_roundtrip (s : Str) (p : PackageIdentifier)
    (hparse : parsePackageIdentifier s = .ok p)
    (hfix : urldecode (renderPackageIdentifier p) = renderPackageIdentifier p) :
    parsePackageIdentifier (renderPackageIdentifier p) = .ok p := by
  unfold parsePackageIdentifier at hparse ⊢
  rcases hsp : splitSlash (urldecode s) with _ | ⟨part, rest⟩
  · rw [hsp] at hparse; simp at hparse
  · rw [hsp] at hparse
    simp only at hparse
    have hpartmem : part ∈ splitSlash (urldecode s) := by
      rw [hsp]; exact List.mem_cons_self _ _
    have hpartns : '/' ∉ part := mem_splitSlash_no_slash _ _ hpartmem
    rcases hstrip : charStrip '@' part with _ | scope
    · rw [hstrip] at hparse
      simp only at hparse
      split at hparse
      · rename_i hrest
        simp only [Except.ok.injEq] at hparse
        subst hparse
        simp only [renderPackageIdentifier] at hfix ⊢
        rw [hfix, splitSlash_of_no_slash part hpartns]
        simp only [hstrip]
        simp
      · simp at hparse
    · rw [hstrip] at hparse
      have hpart : part = '@' :: scope := charStrip_eq_some hstrip
      rcases rest with _ | ⟨name, rest2⟩
      · simp at hparse
      · simp only at hparse
        split at hparse
        · rename_i hrest2
          simp only [Except.ok.injEq] at hparse
          subst hparse
          have hnamens : '/' ∉ name := by
            refine mem_splitSlash_no_slash (urldecode s) name ?_
            rw [hsp]
            exact List.mem_cons_of_mem _ (List.mem_cons_self _ _)
          have hscopens : '/' ∉ scope := by
            intro hm
            exact hpartns (hpart ▸ List.mem_cons_of_mem _ hm)
          simp only [renderPackageIdentifier] at hfix ⊢
          rw [hfix]
          have hsplit : splitSlash ('@' :: (scope ++ '/' :: name)) =
              ('@' :: scope) :: splitSlash name := by
            have := splitSlash_append_slash ('@' :: scope) name
              (by
                intro hm
                rcases List.mem_cons.mp hm with h1 | h1
                · exact absurd h1.symm (by decide)
                · exact hscopens h1)
            simpa using this
          rw [hsplit, splitSlash_of_no_slash name hnamens]
          simp [charStrip]
        · simp at hparse

/-- C4 witness: a concrete escape-free identifier round-trips. -/
theorem c4_parse_render_roundtrip_witness :
    parsePackageIdentifier "@acme/widget".toList = .ok ⟨some "acme".toList, "widget".toList⟩ ∧
      parsePackageIdentifier
          (renderPackageIdentifier ⟨some "acme".toList, "widget".toList⟩) =
        .ok ⟨some "acme".toList, "widget".toList⟩ :=
  ⟨by decide,
    c4_parse_render_roundtrip "@acme/widget".toList ⟨some "acme".toList, "widget".toList⟩
      (by decide) (by decide)⟩

/-- C5: `poll_login_session` behaves exactly as specified on every map
state: an unknown session id fails with "unrecognized login session" and
leaves the map unchanged; a session without a user yields `none` and
leaves the map unchanged; a session with user `u` yields `u`, removes that
session, and leaves every other entry untouched. -/
theorem c5_poll_login_session (m : LoginSessionMap) (s : Str) :
    (m s = none →
      poll_login_session m s = (.error "unrecognized login session".toList, m)) ∧
    (∀ sess : LoginSession, m s = some sess → sess.user = none →
      poll_login_session m s = (.ok none, m)) ∧
    (∀ sess : LoginSession, ∀ u : User, m s = some sess → sess.user = some u →
      (poll_login_session m s).1 = .ok (some u) ∧
        (poll_login_session m s).2 s = none ∧
        ∀ k : Str, k ≠ s → (poll_login_session m s).2 k = m k) := by
  refine ⟨?_, ?_, ?_⟩
  · intro h
    simp [poll_login_session, h]
  · intro sess hm hu
    simp [poll_login_session, hm, hu]
  · intro sess u hm hu
    refine ⟨?_, ?_, ?_⟩
    · simp [poll_login_session, hm, hu]
    · simp [poll_login_session, hm, hu, removeLoginSession]
    · intro k hk
      simp [poll_login_session, hm, hu, removeLoginSession, hk]

/-- C5 witness: the three cases of `poll_login_session` on a concrete map
with a completed session `sid1`, a pending session `sid2`, and no session
`nope`. -/
theorem c5_poll_login_session_witness :
    poll_login_session loginMapCex "nope".toList =
        (.error "unrecognized login session".toList, loginMapCex) ∧
      poll_login_session loginMapCex "sid2".toList = (.ok none, loginMapCex) ∧
      (poll_login_session loginMapCex "sid1".toList).1 = .ok (some userAlice) ∧
      (poll_login_session loginMapCex "sid1".toList).2 "sid1".toList = none ∧
      (poll_login_session loginMapCex "sid1".toList).2 "sid2".toList =
        loginMapCex "sid2".toList :=
  ⟨(c5_poll_login_session loginMapCex "nope".toList).1 (by decide),
    (c5_poll_login_session loginMapCex "sid2".toList).2.1 sessionNoUser (by decide) (by decide),
    ((c5_poll_login_session loginMapCex "sid1".toList).2.2 sessionWithUser userAlice
        (by decide) (by decide)).1,
    ((c5_poll_login_session loginMapCex "sid1".toList).2.2 sessionWithUser userAlice
        (by decide) (by decide)).2.1,
    ((c5_poll_login_session loginMapCex "sid1".toList).2.2 sessionWithUser userAlice
        (by decide) (by decide)).2.2 "sid2".toList (by decide)⟩

theorem isPrefixOf_append_self (a b : Str) : a.isPrefixOf (a ++ b) = true := by
  induction a with
  | nil => simp [List.isPrefixOf]
  | cons c a2 ih => simp [List.isPrefixOf, ih]

theorem stripScheme_upper (t : Str) : stripScheme ("Bearer ".toList ++ t) = some t := by
  unfold stripScheme
  rw [if_pos (isPrefixOf_append_self _ _), List.drop_left]

theorem stripScheme_lower (t : Str) : stripScheme ("bearer ".toList ++ t) = some t := by
  have h1 : "Bearer ".toList = 'B' :: "earer ".toList := by decide
  have h2 : "bearer ".toList = 'b' :: "earer ".toList := by decide
  have hne : ("Bearer ".toList.isPrefixOf ("bearer ".toList ++ t)) = false := by
    rw [h1, h2]
    simp [List.isPrefixOf]
  unfold stripScheme
  rw [if_neg (by simp [hne]), if_pos (isPrefixOf_append_self _ _), List.drop_left]

/-- C7 counterexample: the scheme word is not stripped case-insensitively —
with a stored token `tok`, the header `Bearer tok` authenticates but the
capitalization `BEARER tok` does not. -/
theorem c7_counterexample :
    authenticate_session tokenMapCex (some "Bearer tok".toList) = some userAlice ∧
      authenticate_session tokenMapCex (some "BEARER tok".toList) = none := by
  constructor <;> decide

/-- C7 (amended): `authenticate_session` reads the authorization header,
strips the scheme word only in its two source spellings `Bearer ` and
`bearer `, trims the surrounding whitespace of the remainder, and delegates
the token to `authenticate_session_bearer`; for every stored token both
accepted spellings authenticate to the same user. -/
theorem c7_bearer_scheme (sessions : TokenSessionMap) (t : Str) (u : User)
    (htrim : trimChars t = t)
    (hlook : authenticate_session_bearer sessions t = some u) :
    authenticate_session sessions (some ("Bearer ".toList ++ t)) = some u ∧
      authenticate_session sessions (some ("bearer ".toList ++ t)) = some u := by
  constructor
  · unfold authenticate_session
    simp only [stripScheme_upper, htrim, hlook]
  · unfold authenticate_session
    simp only [stripScheme_lower, htrim, hlook]

/-- C7 witness: both source spellings at a concrete token map. -/
theorem c7_bearer_scheme_witness :
    authenticate_session tokenMapCex (some ("Bearer ".toList ++ "tok".toList)) =
        some userAlice ∧
      authenticate_session tokenMapCex (some ("bearer ".toList ++ "tok".toList)) =
        some userAlice :=
  c7_bearer_scheme tokenMapCex "tok".toList userAlice (by decide) (by decide)

theorem replaceAllFuel_no_occurrence (pat rep : Str) (fuel : Nat) (s : Str)
    (h : containsSeq pat s = false) : replaceAllFuel pat rep fuel s = s := by
  induction fuel generalizing s with
  | zero =>
    cases s with
    | nil =>
      unfold containsSeq at h
      unfold replaceAllFuel
      simp [h]
    | cons c rest => rfl
  | succ fuel ih =>
    cases s with
    | nil =>
      unfold containsSeq at h
      unfold replaceAllFuel
      simp [h]
    | cons c rest =>
      unfold containsSeq at h
      rw [Bool.or_eq_false_iff] at h
      obtain ⟨hpre, hrest⟩ := h
      have hne : pat.isEmpty = false := by
        cases pat with
        | nil => simp [List.isPrefixOf] at hpre
        | cons a as => rfl
      unfold replaceAllFuel
      simp only [hne, Bool.false_eq_true, if_false, hpre]
      rw [ih rest hrest]

theorem replaceAll_no_occurrence (pat rep s : Str) (h : containsSeq pat s = false) :
    replaceAll pat rep s = s :=
  replaceAllFuel_no_occurrence pat rep s.length s h

/-- C8 counterexample: with upstream URL `http://u/u` and public URL
`http://u`, the rewrite of the tarball string `http://u/u/u` is not
idempotent: one application gives `http://u/u`, a second gives
`http://u`. -/
theorem c8_counterexample :
    rewriteTarballURL "http://u/u".toList "http://u".toList
        (rewriteTarballURL "http://u/u".toList "http://u".toList "http://u/u/u".toList) ≠
      rewriteTarballURL "http://u/u".toList "http://u".toList "http://u/u/u".toList := by
  decide

/-- C8 (amended): the tarball-URL rewrite is idempotent whenever its output
contains no further occurrence of the upstream URL — which a replacement
can only produce when the configured URLs overlap, as in the
counterexample's nested pair. On such residual-free rewrites a second
application changes nothing. -/
theorem c8_rewrite_idempotent (upstreamUrl publicUrl s : Str)
    (h : containsSeq upstreamUrl (rewriteTarballURL upstreamUrl publicUrl s) = false) :
    rewriteTarballURL upstreamUrl publicUrl (rewriteTarballURL upstreamUrl publicUrl s) =
      rewriteTarballURL upstreamUrl publicUrl s :=
  replaceAll_no_occurrence _ _ _ h

/-- C8 witness: a disjoint upstream/public pair at a concrete tarball URL. -/
theorem c8_rewrite_idempotent_witness :
    rewriteTarballURL "https://up".toList "https://pub".toList
        (rewriteTarballURL "https://up".toList "https://pub".toList
          "https://up/foo/-/foo-1.0.0.tgz".toList) =
      rewriteTarballURL "https://up".toList "https://pub".toList
        "https://up/foo/-/foo-1.0.0.tgz".toList :=
  c8_rewrite_idempotent "https://up".toList "https://pub".toList
    "https://up/foo/-/foo-1.0.0.tgz".toList (by decide)

/-- C2 counterexample: on a cache miss where the upstream stream yields a
good chunk and then an error chunk, the fill loop breaks, commits the
partial content, and returns it as a success — the partial bytes become
visible under the key and no upstream error reaches the caller. -/
theorem c2_counterexample :
    (stream_packument emptyCache fooIdent (.ok chunksCex)).1 = .ok [1, 2] ∧
      (stream_packument emptyCache fooIdent (.ok chunksCex)).2.entries
          (packumentKey fooIdent) = some [1, 2] := by
  constructor <;> decide

/-- C2 (amended): on a cache miss, only a failure to open the inner stream
propagates as an error without committing; once chunks flow, a chunk error
merely stops the loop, the prefix received before it is committed
unconditionally, and that (possibly partial) content is served to the
caller as a success. The same holds for tarballs. -/
theorem c2_fill_commit_behavior (st : CacheState) (pkg : PackageIdentifier) (version : Str)
    (hmissP : st.entries (packumentKey pkg) = none)
    (hmissT : st.entries (tarballKey pkg version) = none) :
    (∀ e : Str, stream_packument st pkg (.error e) = (.error e, st) ∧
      stream_tarball st pkg version (.error e) = (.error e, st)) ∧
    (∀ chunks : List (Except Str (List Nat)),
      stream_packument st pkg (.ok chunks) =
        (.ok (writtenPrefix chunks),
          cacheInsert st (packumentKey pkg) (writtenPrefix chunks)) ∧
      stream_tarball st pkg version (.ok chunks) =
        (.ok (writtenPrefix chunks),
          cacheInsert st (tarballKey pkg version) (writtenPrefix chunks))) := by
  constructor
  · intro e
    constructor <;> simp [stream_packument, stream_tarball, readThroughFill, hmissP, hmissT]
  · intro chunks
    constructor <;> simp [stream_packument, stream_tarball, readThroughFill, hmissP, hmissT]

/-- C2 witness: the two miss behaviours at a concrete cache and stream. -/
theorem c2_fill_commit_behavior_witness :
    stream_packument emptyCache fooIdent (.error "down".toList) =
        (.error "down".toList, emptyCache) ∧
      stream_tarball emptyCache fooIdent "1.0.0".toList (.ok chunksCex) =
        (.ok (writtenPrefix chunksCex),
          cacheInsert emptyCache (tarballKey fooIdent "1.0.0".toList)
            (writtenPrefix chunksCex)) :=
  ⟨((c2_fill_commit_behavior emptyCache fooIdent "1.0.0".toList (by decide) (by decide)).1
      "down".toList).1,
    ((c2_fill_commit_behavior emptyCache fooIdent "1.0.0".toList (by decide) (by decide)).2
      chunksCex).2⟩

/-- C10: `put_packument` returns 400 with no storage interaction at all when
the body's `_id` is absent or differs from the raw URL package segment (in
particular before any diff is computed); and when the diff succeeds the
modification is discarded, the only storage operation performed is the
single `fetch_packument` read (the `PackageStorage` capability offers no
write), and the response is 404 Not Found. -/
theorem c10_put_packument (c : Codecs) (storage : PackageIdentifier → Option Packument)
    (pkg : Str) (payload : Packument) :
    (payload.id ≠ some pkg → put_packument c storage pkg payload = (.error 400, [])) ∧
    (∀ p : PackageIdentifier, ∀ m : PackageModification,
      payload.id = some pkg → parsePackageIdentifier pkg = .ok p →
      from_diff c ((storage p).getD emptyPackument) payload = .ok m →
      put_packument c storage pkg payload = (.ok 404, [.fetchPackumentOp p])) := by
  constructor
  · intro h
    simp [put_packument, h]
  · intro p m hid hparse hdiff
    simp [put_packument, hid, hparse, hdiff]

/-- C10 witness: a concrete successful publish body PUT at `foo` responds
404 with exactly one fetch; the same body PUT at `bar` (id mismatch)
responds 400 with no storage operation. -/
theorem c10_put_packument_witness :
    put_packument codecsCex (fun _ => none) "foo".toList publishPackumentCex =
        (.ok 404, [.fetchPackumentOp fooIdent]) ∧
      put_packument codecsCex (fun _ => none) "bar".toList publishPackumentCex =
        (.error 400, []) :=
  ⟨(c10_put_packument codecsCex (fun _ => none) "foo".toList publishPackumentCex).2
      fooIdent (.AddVersion "latest".toList versionCex (some gzBytesCex))
      (by decide) (by decide) (by decide),
    (c10_put_packument codecsCex (fun _ => none) "bar".toList publishPackumentCex).1
      (by decide)⟩

theorem validateEntriesLoop_ok_iff (es : List TarEntry) :
    ∀ (size count : Nat) (saw b : Bool), count ≤ MAX_FILE_COUNT → size ≤ MAX_UNPACKED_SIZE →
      (validateEntriesLoop es size count saw = .ok b ↔
        (count + es.length ≤ MAX_FILE_COUNT ∧ size + sumSizes es ≤ MAX_UNPACKED_SIZE ∧
          (∀ e ∈ es, (stripPackageComponents e.path).isSome) ∧
          b = (saw || anyPackageJson es))) := by
  induction es with
  | nil =>
    intro size count saw b hcount hsize
    simp only [validateEntriesLoop, List.length_nil, Nat.add_zero, sumSizes, List.map_nil,
      List.sum_nil, anyPackageJson, List.any_nil, Bool.or_false, List.not_mem_nil,
      false_implies, implies_true, true_and, Except.ok.injEq]
    constructor
    · intro h
      exact ⟨hcount, hsize, h.symm⟩
    · rintro ⟨h1, h2, h3⟩
      exact h3.symm
  | cons e rest ih =>
    intro size count saw b hcount hsize
    simp only [validateEntriesLoop]
    by_cases h1 : MAX_FILE_COUNT < count + 1
    · rw [if_pos h1]
      constructor
      · intro h; simp at h
      · rintro ⟨hc, _, _, _⟩
        exfalso
        simp only [List.length_cons] at hc
        omega
    · rw [if_neg h1]
      by_cases h2 : MAX_UNPACKED_SIZE < size + e.size
      · rw [if_pos h2]
        constructor
        · intro h; simp at h
        · rintro ⟨_, hs, _, _⟩
          exfalso
          simp only [sumSizes, List.map_cons, List.sum_cons] at hs
          omega
      · rw [if_neg h2]
        rcases hstrip : stripPackageComponents e.path with _ | r
        · simp only
          constructor
          · intro h; simp at h
          · rintro ⟨_, _, hall, _⟩
            have hme := hall e (List.mem_cons_self _ _)
            rw [hstrip] at hme
            simp at hme
        · simp only
          rw [ih (size + e.size) (count + 1)
            (saw || decide (displayComponents r = "package.json".toList)) b
            (by omega) (by omega)]
          constructor
          · rintro ⟨hc, hs, hall, hb⟩
            refine ⟨?_, ?_, ?_, ?_⟩
            · simp only [List.length_cons]; omega
            · simp only [sumSizes, List.map_cons, List.sum_cons]
              simp only [sumSizes] at hs
              omega
            · intro x hx
              rcases List.mem_cons.mp hx with hx | hx
              · rw [hx, hstrip]; rfl
              · exact hall x hx
            · rw [hb]
              simp only [anyPackageJson, List.any_cons, hstrip]
              cases saw <;> simp [Bool.or_assoc]
          · rintro ⟨hc, hs, hall, hb⟩
            refine ⟨?_, ?_, ?_, ?_⟩
            · simp only [List.length_cons] at hc; omega
            · simp only [sumSizes, List.map_cons, List.sum_cons] at hs
              simp only [sumSizes]
              omega
            · intro x hx
              exact hall x (List.mem_cons_of_mem _ hx)
            · rw [hb]
              simp only [anyPackageJson, List.any_cons, hstrip]
              cases saw <;> simp [Bool.or_assoc]

theorem anyPackageJson_eq_true_iff (es : List TarEntry) :
    anyPackageJson es = true ↔
      ∃ e ∈ es, ∃ r, stripPackageComponents e.path = some r ∧
        displayComponents r = "package.json".toList := by
  unfold anyPackageJson
  rw [List.any_eq_true]
  constructor
  · rintro ⟨e, he, hp⟩
    rcases hs : stripPackageComponents e.path with _ | r
    · rw [hs] at hp; simp at hp
    · rw [hs] at hp
      simp only [decide_eq_true_eq] at hp
      exact ⟨e, he, r, hs, hp⟩
  · rintro ⟨e, he, r, hs, hd⟩
    refine ⟨e, he, ?_⟩
    rw [hs]
    simpa using hd

/-- C3 counterexample: the entry-path check is the component-based
`Path::strip_prefix("package/")`, so the bare path `package` — which does
not begin with the string `package/` — is accepted: a tarball with entries
`package` and `package/package.json` validates successfully, refuting the
claimed "every entry path begins with package/" direction of the iff. -/
theorem c3_counterexample :
    validateTarball [⟨"package".toList, 0⟩, ⟨"package/package.json".toList, 0⟩] = .ok () ∧
      "package/".toList.isPrefixOf "package".toList = false := by
  constructor <;> decide

/-- C3 (amended): for every entry list of a well-formed gzipped USTAR
attachment, the AddVersion tarball validation succeeds exactly when the
entry count is at most 16000 (so 16000 entries pass and 16001 fail), the
accumulated sizes are at most 1 GiB (a sum of exactly 1 GiB passes), every
entry path has `package` as its first path component (this also admits the
bare path `package`, which does not begin with the string `package/`), and
some entry's path after that component displays as `package.json`. -/
theorem c3_validate_iff (es : List TarEntry) :
    validateTarball es = .ok () ↔
      (es.length ≤ MAX_FILE_COUNT ∧ sumSizes es ≤ MAX_UNPACKED_SIZE ∧
        (∀ e ∈ es, (stripPackageComponents e.path).isSome) ∧
        ∃ e ∈ es, ∃ r, stripPackageComponents e.path = some r ∧
          displayComponents r = "package.json".toList) := by
  have key : validateTarball es = .ok () ↔ validateEntriesLoop es 0 0 false = .ok true := by
    unfold validateTarball
    rcases h : validateEntriesLoop es 0 0 false with msg | b
    · simp
    · cases b <;> simp
  rw [key,
    validateEntriesLoop_ok_iff es 0 0 false true (Nat.zero_le _) (Nat.zero_le _)]
  simp only [Nat.zero_add, Bool.false_or]
  rw [show (true = anyPackageJson es) ↔ anyPackageJson es = true from eq_comm,
    anyPackageJson_eq_true_iff]

theorem mem_listDiff {a b : List Str} {x : Str} (h : x ∈ listDiff a b) : x ∈ a ∧ x ∉ b := by
  unfold listDiff at h
  have hm := List.mem_filter.mp h
  exact ⟨hm.1, by simpa using hm.2⟩

theorem sameSet_eq_false_left {a b : List Str} {x : Str} {t : List Str}
    (h : listDiff a b = x :: t) : sameSet a b = false := by
  have hx : x ∈ listDiff a b := by rw [h]; exact List.mem_cons_self _ _
  obtain ⟨hxa, hxb⟩ := mem_listDiff hx
  unfold sameSet
  have hall : a.all (fun y => decide (y ∈ b)) = false := by
    cases hall : a.all (fun y => decide (y ∈ b)) with
    | false => rfl
    | true =>
      exfalso
      have := List.all_eq_true.mp hall x hxa
      simp only [decide_eq_true_eq] at this
      exact hxb this
  rw [hall, Bool.false_and]

theorem sameSet_eq_false_right {a b : List Str} {x : Str} {t : List Str}
    (h : listDiff b a = x :: t) : sameSet a b = false := by
  have hx : x ∈ listDiff b a := by rw [h]; exact List.mem_cons_self _ _
  obtain ⟨hxb, hxa⟩ := mem_listDiff hx
  unfold sameSet
  have hall : b.all (fun y => decide (y ∈ a)) = false := by
    cases hall : b.all (fun y => decide (y ∈ a)) with
    | false => rfl
    | true =>
      exfalso
      have := List.all_eq_true.mp hall x hxb
      simp only [decide_eq_true_eq] at this
      exact hxa this
  rw [hall, Bool.and_false]

/-- C6: when the stargazer branch and the publish branch both fall through
and both packuments supply `maintainers`, the diff acts on the
byline-projected name sets: a single removed name wins first
(`RemoveMaintainer`, even if names were also added), more than one removed
name is the single-removal error, and with nothing removed a single added
name gives `AddMaintainer` while several give "Can only add a single
maintainer at a time". -/
theorem c6_maintainer_diff (c : Codecs) (old new : Packument) (om nm : List Maintainer)
    (hsg : stargazerDiff old new = none) (hpd : publishDiff c new = none)
    (hom : old.maintainers = some om) (hnm : new.maintainers = some nm) :
    (∀ x : Str, listDiff (maintainerNames om) (maintainerNames nm) = [] →
      listDiff (maintainerNames nm) (maintainerNames om) = [x] →
      from_diff c old new = .ok (.AddMaintainer x)) ∧
    (listDiff (maintainerNames om) (maintainerNames nm) = [] →
      1 < (listDiff (maintainerNames nm) (maintainerNames om)).length →
      from_diff c old new = .error "Can only add a single maintainer at a time".toList) ∧
    (∀ x : Str, listDiff (maintainerNames om) (maintainerNames nm) = [x] →
      from_diff c old new = .ok (.RemoveMaintainer x)) ∧
    (1 < (listDiff (maintainerNames om) (maintainerNames nm)).length →
      from_diff c old new = .error "Can only remove a single maintainer at a time".toList) := by
  have hfd : ∀ r, maintainerDiff old new = some r → from_diff c old new = r := by
    intro r hr
    simp only [from_diff, hsg, hpd, hr]
  refine ⟨?_, ?_, ?_, ?_⟩
  · intro x hrem hadd
    refine hfd _ ?_
    have hss := sameSet_eq_false_right hadd
    simp [maintainerDiff, hom, hnm, hss, hrem, hadd]
  · intro hrem hlen
    rcases hl : listDiff (maintainerNames nm) (maintainerNames om) with _ | ⟨x, _ | ⟨y, t⟩⟩
    · rw [hl] at hlen; simp at hlen
    · rw [hl] at hlen; simp at hlen
    · refine hfd _ ?_
      have hss := sameSet_eq_false_right hl
      simp [maintainerDiff, hom, hnm, hss, hrem, hl]
  · intro x hrem
    refine hfd _ ?_
    have hss := sameSet_eq_false_left hrem
    simp [maintainerDiff, hom, hnm, hss, hrem]
  · intro hlen
    rcases hl : listDiff (maintainerNames om) (maintainerNames nm) with _ | ⟨x, _ | ⟨y, t⟩⟩
    · rw [hl] at hlen; simp at hlen
    · rw [hl] at hlen; simp at hlen
    · refine hfd _ ?_
      have hss := sameSet_eq_false_left hl
      simp [maintainerDiff, hom, hnm, hss, hl]

/-- C6 witness: adding the single maintainer object `alice` beside the
byline `gary` yields `AddMaintainer alice`. -/
theorem c6_maintainer_diff_witness :
    from_diff codecsCex oldMaintainersPack newMaintainersPack =
      .ok (.AddMaintainer "alice".toList) :=
  (c6_maintainer_diff codecsCex oldMaintainersPack newMaintainersPack
      [.Byline "gary".toList]
      [.Byline "gary".toList, .Object ⟨some "alice".toList, none, none⟩]
      (by decide) (by decide) (by decide) (by decide)).1
    "alice".toList (by decide) (by decide)

theorem stargazerDiff_shapes (old new : Packument) :
    stargazerDiff old new = none ∨
      (∃ x, stargazerDiff old new = some (.ok (.RemoveStar x))) ∨
      (∃ x, stargazerDiff old new = some (.ok (.AddStar x))) ∨
      (∃ m, stargazerDiff old new = some (.error m)) := by
  unfold stargazerDiff
  split
  · dsimp only
    split
    · exact Or.inl rfl
    · split
      · exact Or.inr (Or.inl ⟨_, rfl⟩)
      · exact Or.inr (Or.inr (Or.inr ⟨_, rfl⟩))
      · split
        · exact Or.inr (Or.inr (Or.inl ⟨_, rfl⟩))
        · exact Or.inr (Or.inr (Or.inr ⟨_, rfl⟩))
        · exact Or.inl rfl
  · exact Or.inl rfl

theorem maintainerDiff_shapes (old new : Packument) :
    maintainerDiff old new = none ∨
      (∃ x, maintainerDiff old new = some (.ok (.RemoveMaintainer x))) ∨
      (∃ x, maintainerDiff old new = some (.ok (.AddMaintainer x))) ∨
      (∃ m, maintainerDiff old new = some (.error m)) := by
  unfold maintainerDiff
  split
  · dsimp only
    split
    · exact Or.inl rfl
    · split
      · exact Or.inr (Or.inl ⟨_, rfl⟩)
      · exact Or.inr (Or.inr (Or.inr ⟨_, rfl⟩))
      · split
        · exact Or.inr (Or.inr (Or.inl ⟨_, rfl⟩))
        · exact Or.inr (Or.inr (Or.inr ⟨_, rfl⟩))
        · exact Or.inl rfl
  · exact Or.inl rfl

theorem publishDiff_addversion {c : Codecs} {new : Packument} {tag : Str}
    {v : PackumentVersion} {tb : Option (List Nat)}
    (h : publishDiff c new = some (.ok (.AddVersion tag v tb))) :
    ∃ atts aname att, new.attachments = some atts ∧ alistGet atts aname = some att ∧
      att.content_type = "application/octet-stream".toList ∧
      tb = some (c.b64decode att.data) := by
  unfold publishDiff at h
  split at h
  · rename_i dist_tags versions attachments hdt hv hat
    split at h
    · rw [Option.some.injEq] at h
      split at h
      · simp at h
      · split at h
        · simp at h
        · split at h
          · simp at h
          · split at h
            · simp at h
            · split at h
              · simp at h
              · split at h
                · simp at h
                · rename_i xatt attachment hlook
                  split at h
                  · simp at h
                  · rename_i hct
                    dsimp only at h
                    split at h
                    · simp at h
                    · split at h
                      · simp at h
                      · split at h
                        · simp at h
                        · rw [Except.ok.injEq] at h
                          injection h with htag hver htb
                          exact ⟨attachments, _, attachment, hat, hlook,
                            not_not.mp hct, htb.symm⟩
    · simp at h
  · simp at h

/-- C1 counterexample: on a concrete successful publish, the emitted
`AddVersion.tarball` is the base64-decoded attachment bytes (`gzBytesCex`,
still gzip-compressed: the tee captures the gzip decoder's input), while
the gunzip of those bytes is `tarBytesCex` — and the two differ, so the
tarball does not equal the gunzip of the base64-decoding. -/
theorem c1_counterexample :
    from_diff codecsCex emptyPackument publishPackumentCex =
        .ok (.AddVersion "latest".toList versionCex (some gzBytesCex)) ∧
      codecsCex.b64decode "QUJD".toList = gzBytesCex ∧
      codecsCex.gunzip gzBytesCex = some tarBytesCex ∧
      gzBytesCex ≠ tarBytesCex := by
  refine ⟨by decide, by decide, by decide, by decide⟩

/-- C1 (amended): whenever `from_diff` succeeds with `AddVersion`, the
stored tarball bytes are exactly the base64-decoding of the matched
attachment's data — the bytes fed into the gzip decoder, not the gzip
decoder's output. -/
theorem c1_tarball_is_decoded_attachment (c : Codecs) (old new : Packument)
    (tag : Str) (v : PackumentVersion) (tb : Option (List Nat))
    (h : from_diff c old new = .ok (.AddVersion tag v tb)) :
    ∃ atts aname att, new.attachments = some atts ∧ alistGet atts aname = some att ∧
      att.content_type = "application/octet-stream".toList ∧
      tb = some (c.b64decode att.data) := by
  unfold from_diff at h
  rcases hsg2 : stargazerDiff old new with _ | r
  · rw [hsg2] at h
    simp only at h
    rcases hpd : publishDiff c new with _ | r
    · rw [hpd] at h
      simp only at h
      rcases hmd : maintainerDiff old new with _ | r
      · rw [hmd] at h
        simp at h
      · rw [hmd] at h
        simp only at h
        subst h
        rcases maintainerDiff_shapes old new with h1 | ⟨x, h1⟩ | ⟨x, h1⟩ | ⟨m, h1⟩ <;>
          rw [h1] at hmd <;> simp at hmd
    · rw [hpd] at h
      simp only at h
      subst h
      exact publishDiff_addversion hpd
  · rw [hsg2] at h
    simp only at h
    subst h
    rcases stargazerDiff_shapes old new with h1 | ⟨x, h1⟩ | ⟨x, h1⟩ | ⟨m, h1⟩ <;>
      rw [h1] at hsg2 <;> simp at hsg2

/-- C1 witness: the concrete publish fixture, with the stored bytes equal
to the base64-decoding of its attachment. -/
theorem c1_tarball_is_decoded_attachment_witness :
    from_diff codecsCex emptyPackument publishPackumentCex =
        .ok (.AddVersion "latest".toList versionCex (some gzBytesCex)) ∧
      ∃ atts aname att, publishPackumentCex.attachments = some atts ∧
        alistGet atts aname = some att ∧
        att.content_type = "application/octet-stream".toList ∧
        (some gzBytesCex : Option (List Nat)) = some (codecsCex.b64decode att.data) :=
  ⟨by decide,
    c1_tarball_is_decoded_attachment codecsCex emptyPackument publishPackumentCex
      "latest".toList versionCex (some gzBytesCex) (by decide)⟩

end Registry
